import Mathlib

/-!
Verification development for the vpncloud cloud engine (src/cloud.rs and
src/engine/shared.rs), shallowly embedded in Lean.

Rust HashMaps are modelled as association lists (`List (K × V)`) with the
exact operational semantics of `HashMap::get` / `insert` / `remove`:
`insert` replaces the value of an existing key in place (and the old value,
which Rust returns, is recovered by looking up before inserting); `remove`
deletes the key. Key order inside the list is irrelevant to all statements,
which only inspect `alookup`.

Socket addresses and node ids are opaque in the engine (only compared for
equality), so both are modelled as `Nat`. Times are `Int` (the engine's
`Time` is `i64`; no arithmetic here comes near the `i64` bounds).
-/

section AList

variable {K : Type} [DecidableEq K] {V : Type}

/-- Lookup in an association list, mirroring `HashMap::get`. -/
def alookup : List (K × V) → K → Option V
  | [], _ => none
  | p :: t, k => if p.1 = k then some p.2 else alookup t k

/-- Insert mirroring `HashMap::insert`: replace the value of an existing key
in place, otherwise append the new binding. -/
def ainsert : List (K × V) → K → V → List (K × V)
  | [], k, v => [(k, v)]
  | p :: t, k, v => if p.1 = k then (k, v) :: t else p :: ainsert t k v

/-- Remove mirroring `HashMap::remove`: delete every binding of the key. -/
def aremove : List (K × V) → K → List (K × V)
  | [], _ => []
  | p :: t, k => if p.1 = k then aremove t k else p :: aremove t k

@[simp] theorem alookup_nil (k : K) : alookup ([] : List (K × V)) k = none := rfl

@[simp] theorem alookup_cons (p : K × V) (t : List (K × V)) (k : K) :
    alookup (p :: t) k = if p.1 = k then some p.2 else alookup t k := rfl

theorem alookup_ainsert (l : List (K × V)) (k : K) (v : V) (k' : K) :
    alookup (ainsert l k v) k' = if k' = k then some v else alookup l k' := by
  induction l with
  | nil =>
    simp only [ainsert, alookup_cons, alookup_nil]
    by_cases h : k' = k
    · simp [h]
    · simp [h, Ne.symm h]
  | cons p t ih =>
    simp only [ainsert]
    by_cases hpk : p.1 = k
    · rw [if_pos hpk, alookup_cons, alookup_cons, hpk]
      by_cases h : k' = k
      · simp [h]
      · simp [h, Ne.symm h]
    · rw [if_neg hpk, alookup_cons, alookup_cons, ih]
      by_cases hp : p.1 = k'
      · have h : ¬ k' = k := fun hh => hpk (hp.trans hh)
        simp [hp, h]
      · simp [hp]

theorem alookup_aremove (l : List (K × V)) (k : K) (k' : K) :
    alookup (aremove l k) k' = if k' = k then none else alookup l k' := by
  induction l with
  | nil => simp [aremove]
  | cons p t ih =>
    simp only [aremove]
    by_cases hpk : p.1 = k
    · rw [if_pos hpk, ih]
      by_cases h : k' = k
      · simp [h]
      · have hp : p.1 ≠ k' := fun hh => h (hh.symm.trans hpk)
        simp [h, hp]
    · rw [if_neg hpk, alookup_cons, ih]
      by_cases hp : p.1 = k'
      · have h : ¬ k' = k := fun hh => hpk (hp.trans hh)
        simp [hp, h]
      · simp [hp]

theorem alookup_ainsert_self (l : List (K × V)) (k : K) (v : V) :
    alookup (ainsert l k v) k = some v := by simp [alookup_ainsert]

theorem alookup_aremove_self (l : List (K × V)) (k : K) :
    alookup (aremove l k) k = none := by simp [alookup_aremove]

theorem aremove_keys (l : List (K × V)) (k : K) :
    ∀ p ∈ aremove l k, p.1 ≠ k := by
  induction l with
  | nil => simp [aremove]
  | cons p t ih =>
    by_cases hpk : p.1 = k
    · simpa [aremove, hpk] using ih
    · intro q hq
      simp only [aremove, if_neg hpk, List.mem_cons] at hq
      rcases hq with h | h
      · exact h ▸ hpk
      · exact ih q h

theorem ainsert_of_keys_ne (l : List (K × V)) (k : K) (v : V)
    (h : ∀ p ∈ l, p.1 ≠ k) : ainsert l k v = l ++ [(k, v)] := by
  induction l with
  | nil => rfl
  | cons p t ih =>
    have hp : p.1 ≠ k := h p (by simp)
    simp only [ainsert, if_neg hp, List.cons_append, List.cons.injEq, true_and]
    exact ih (fun q hq => h q (by simp [hq]))

theorem aremove_of_keys_ne (l : List (K × V)) (k : K)
    (h : ∀ p ∈ l, p.1 ≠ k) : aremove l k = l := by
  induction l with
  | nil => rfl
  | cons p t ih =>
    have hp : p.1 ≠ k := h p (by simp)
    simp only [aremove, if_neg hp, List.cons.injEq, true_and]
    exact ih (fun q hq => h q (by simp [hq]))

theorem aremove_append (l₁ l₂ : List (K × V)) (k : K) :
    aremove (l₁ ++ l₂) k = aremove l₁ k ++ aremove l₂ k := by
  induction l₁ with
  | nil => rfl
  | cons p t ih => by_cases hpk : p.1 = k <;> simp [aremove, hpk, ih]

theorem alookup_foldl_aremove (ks : List K) (l : List (K × V)) (k : K) :
    alookup (ks.foldl (fun m x => aremove m x) l) k =
      if k ∈ ks then none else alookup l k := by
  induction ks generalizing l with
  | nil => simp
  | cons x t ih =>
    by_cases hk : k = x
    · subst hk
      simp [ih, alookup_aremove]
    · by_cases hm : k ∈ t <;> simp [ih, alookup_aremove, hk, hm]

end AList

/-!
PeerList (src/cloud.rs lines 41-192). `PeerData` and the three indices are
modelled field by field; `now` is passed explicitly wherever the source
calls `now()`.
-/

/-- PeerData from src/cloud.rs: expiry time, owning node id, alternate
addresses of the peer. -/
structure PeerData where
  timeout : Int
  node_id : Nat
  alt_addrs : List Nat
  deriving DecidableEq, Repr

/-- PeerList from src/cloud.rs: the configured peer timeout and the three
indices (primary address to record, node id to primary address, any known
address to node id). -/
structure PeerList where
  timeout : Int
  peers : List (Nat × PeerData)
  nodes : List (Nat × Nat)
  addresses : List (Nat × Nat)
  deriving DecidableEq, Repr

namespace PeerList

/-- PeerList::new. -/
def new (timeout : Int) : PeerList :=
  { timeout := timeout, peers := [], nodes := [], addresses := [] }

/-- PeerList::add (src/cloud.rs lines 106-117). The source runs
`self.nodes.insert(node_id, addr)` unconditionally and only creates the
record and reverse entry when that insert returned `None`; `HashMap::insert`
replaces the value of an existing key, which this embedding mirrors. -/
def add (s : PeerList) (now : Int) (node_id : Nat) (addr : Nat) : PeerList :=
  let old := alookup s.nodes node_id
  let nodes' := ainsert s.nodes node_id addr
  if old.isNone then
    { s with
      nodes := nodes',
      peers := ainsert s.peers addr
        { timeout := now + s.timeout, node_id := node_id, alt_addrs := [] },
      addresses := ainsert s.addresses addr node_id }
  else
    { s with nodes := nodes' }

/-- PeerList::refresh (src/cloud.rs lines 119-124). -/
def refresh (s : PeerList) (now : Int) (addr : Nat) : PeerList :=
  match alookup s.peers addr with
  | some data =>
      { s with peers := ainsert s.peers addr { data with timeout := now + s.timeout } }
  | none => s

/-- PeerList::make_primary (src/cloud.rs lines 126-144), including the two
early returns that log an error after partially mutating `nodes`. -/
def make_primary (s : PeerList) (node_id : Nat) (addr : Nat) : PeerList :=
  if (alookup s.peers addr).isSome then s
  else
    match alookup s.nodes node_id with
    | none => s
    | some old_addr =>
      let nodes2 := ainsert (aremove s.nodes node_id) node_id addr
      match alookup s.peers old_addr with
      | none => { s with nodes := nodes2 }
      | some peer =>
        let peer' : PeerData :=
          { peer with alt_addrs := peer.alt_addrs.filter (fun i => i ≠ addr) ++ [old_addr] }
        { s with
          nodes := nodes2,
          peers := ainsert (aremove s.peers old_addr) addr peer',
          addresses := ainsert s.addresses addr node_id }

/-- PeerList::get_node_id (src/cloud.rs lines 146-149). -/
def get_node_id (s : PeerList) (addr : Nat) : Option Nat :=
  alookup s.addresses addr

/-- PeerList::as_vec (src/cloud.rs lines 151-154): the keys of the
any-known-address index. -/
def as_vec (s : PeerList) : List Nat :=
  s.addresses.map (fun p => p.1)

/-- PeerList::contains_addr (src/cloud.rs lines 85-88). -/
def contains_addr (s : PeerList) (addr : Nat) : Bool :=
  (alookup s.addresses addr).isSome

/-- PeerList::contains_node (src/cloud.rs lines 100-103). -/
def contains_node (s : PeerList) (node_id : Nat) : Bool :=
  (alookup s.nodes node_id).isSome

/-- PeerList::remove (src/cloud.rs lines 172-182): drop the record of a
primary address together with all its index entries. The body of the
per-address removal in PeerList::timeout (lines 72-81) is identical. -/
def remove (s : PeerList) (addr : Nat) : PeerList :=
  match alookup s.peers addr with
  | none => s
  | some data =>
    { s with
      peers := aremove s.peers addr,
      nodes := aremove s.nodes data.node_id,
      addresses := data.alt_addrs.foldl (fun m a => aremove m a) (aremove s.addresses addr) }

/-- PeerList::timeout (src/cloud.rs lines 64-83): collect the expired
primaries from the current state, then remove each of them. -/
def timeoutOp (s : PeerList) (now : Int) : PeerList :=
  let del := (s.peers.filter (fun p => decide (p.2.timeout < now))).map (fun p => p.1)
  del.foldl (fun st a => remove st a) s

end PeerList

/-- One PeerList operation of the kinds named by the claim; operations that
read the clock carry the value of `now()`. -/
inductive PLOp where
  | add (now : Int) (node_id addr : Nat)
  | makePrimary (node_id addr : Nat)
  | refresh (now : Int) (addr : Nat)
  | remove (addr : Nat)
  | timeoutAll (now : Int)
  deriving DecidableEq, Repr

def applyOp (s : PeerList) : PLOp → PeerList
  | .add now n a => s.add now n a
  | .makePrimary n a => s.make_primary n a
  | .refresh now a => s.refresh now a
  | .remove a => s.remove a
  | .timeoutAll now => s.timeoutOp now

def applyOps (s : PeerList) (ops : List PLOp) : PeerList :=
  ops.foldl applyOp s

/-!
Coherence of the three PeerList indices (claim C1). `Coherent` is the
property claimed: the NodeId index and the primary-address index are mutual
inverses, and an address is in the any-known index iff some record owns it
as primary or alternate. `PLInv` is the strengthened inductive invariant.
-/

/-- Address `x` is the primary `p` of record `r`, or one of its alternates. -/
def owns (p : Nat) (r : PeerData) (x : Nat) : Prop :=
  x = p ∨ x ∈ r.alt_addrs

/-- The coherence property of claim C1, exactly as stated: the two indices
are mutual inverses, and the any-known index holds an address iff some
record owns it. -/
def Coherent (s : PeerList) : Prop :=
  (∀ n a, alookup s.nodes n = some a ↔
    ∃ r, alookup s.peers a = some r ∧ r.node_id = n) ∧
  (∀ x, (alookup s.addresses x).isSome ↔
    ∃ p r, alookup s.peers p = some r ∧ owns p r x)

/-- Inductive invariant for PeerList: coherence plus correctness of the
values stored in the any-known index and uniqueness of address ownership. -/
structure PLInv (s : PeerList) : Prop where
  nodesPeers : ∀ n a, alookup s.nodes n = some a →
    ∃ r, alookup s.peers a = some r ∧ r.node_id = n
  peersNodes : ∀ a r, alookup s.peers a = some r →
    alookup s.nodes r.node_id = some a
  ownsAddr : ∀ p r x, alookup s.peers p = some r → owns p r x →
    (alookup s.addresses x).isSome
  addrOwner : ∀ x m, alookup s.addresses x = some m →
    ∃ p r, alookup s.nodes m = some p ∧ alookup s.peers p = some r ∧ owns p r x
  uniqueOwner : ∀ p₁ r₁ p₂ r₂ x, alookup s.peers p₁ = some r₁ →
    alookup s.peers p₂ = some r₂ → owns p₁ r₁ x → owns p₂ r₂ x → p₁ = p₂

theorem PLInv.coherent {s : PeerList} (h : PLInv s) : Coherent s := by
  constructor
  · intro n a
    constructor
    · exact h.nodesPeers n a
    · rintro ⟨r, hr, hid⟩
      have hb := h.peersNodes a r hr
      rwa [hid] at hb
  · intro x
    constructor
    · intro hx
      obtain ⟨m, hm⟩ := Option.isSome_iff_exists.mp hx
      obtain ⟨p, r, _, hp, ho⟩ := h.addrOwner x m hm
      exact ⟨p, r, hp, ho⟩
    · rintro ⟨p, r, hp, ho⟩
      exact h.ownsAddr p r x hp ho

theorem PLInv.newList (t : Int) : PLInv (PeerList.new t) := by
  refine ⟨?_, ?_, ?_, ?_, ?_⟩ <;> simp [PeerList.new]

theorem PLInv.addOp {s : PeerList} (h : PLInv s) (now : Int) (n a : Nat)
    (hok : (alookup s.nodes n = none ∧ alookup s.addresses a = none) ∨
      alookup s.nodes n = some a) :
    PLInv (s.add now n a) := by
  rcases hok with ⟨hn, ha⟩ | hn
  · have hpa : alookup s.peers a = none := by
      cases hq : alookup s.peers a with
      | none => rfl
      | some r =>
        have hx := h.ownsAddr a r a hq (Or.inl rfl)
        rw [ha] at hx
        cases hx
    have hown : ∀ p r, alookup s.peers p = some r → ¬ owns p r a := by
      intro p r hp ho
      have hx := h.ownsAddr p r a hp ho
      rw [ha] at hx
      cases hx
    simp only [PeerList.add, hn, Option.isNone_none, if_true]
    refine ⟨?_, ?_, ?_, ?_, ?_⟩
    · intro k b hb
      rw [alookup_ainsert] at hb
      by_cases hk : k = n
      · subst hk
        rw [if_pos rfl] at hb
        injection hb with hb
        subst hb
        refine ⟨_, alookup_ainsert_self _ _ _, rfl⟩
      · rw [if_neg hk] at hb
        obtain ⟨r, hr, hid⟩ := h.nodesPeers k b hb
        have hba : b ≠ a := by
          intro he
          rw [he, hpa] at hr
          cases hr
        exact ⟨r, by rw [alookup_ainsert, if_neg hba]; exact hr, hid⟩
    · intro b r hr
      rw [alookup_ainsert] at hr
      by_cases hb : b = a
      · rw [if_pos hb] at hr
        injection hr with hr
        subst hr
        rw [alookup_ainsert]
        simp [hb]
      · rw [if_neg hb] at hr
        have hnb := h.peersNodes b r hr
        have hne : r.node_id ≠ n := by
          intro he
          rw [he, hn] at hnb
          cases hnb
        rw [alookup_ainsert, if_neg hne]
        exact hnb
    · intro p r x hp ho
      rw [alookup_ainsert] at hp
      rw [alookup_ainsert]
      by_cases hx : x = a
      · simp [hx]
      · rw [if_neg hx]
        by_cases hpq : p = a
        · subst hpq
          rw [if_pos rfl] at hp
          injection hp with hp
          subst hp
          rcases ho with he | hm
          · exact absurd he hx
          · cases hm
        · rw [if_neg hpq] at hp
          exact h.ownsAddr p r x hp ho
    · intro x m hm
      rw [alookup_ainsert] at hm
      by_cases hx : x = a
      · rw [if_pos hx] at hm
        injection hm with hm
        subst hm
        exact ⟨a, _, alookup_ainsert_self _ _ _, alookup_ainsert_self _ _ _, Or.inl hx⟩
      · rw [if_neg hx] at hm
        obtain ⟨p, r, h1, h2, h3⟩ := h.addrOwner x m hm
        have hpna : p ≠ a := by
          intro he
          rw [he, hpa] at h2
          cases h2
        have hmn : m ≠ n := by
          intro he
          rw [he, hn] at h1
          cases h1
        exact ⟨p, r, by rw [alookup_ainsert, if_neg hmn]; exact h1,
          by rw [alookup_ainsert, if_neg hpna]; exact h2, h3⟩
    · intro p₁ r₁ p₂ r₂ x h1 h2 o1 o2
      rw [alookup_ainsert] at h1 h2
      by_cases e1 : p₁ = a <;> by_cases e2 : p₂ = a
      · rw [e1, e2]
      · rw [if_pos e1] at h1
        injection h1 with h1
        subst h1
        rw [if_neg e2] at h2
        rcases o1 with he | hm
        · rw [e1] at he
          subst he
          exact absurd (hown p₂ r₂ h2 o2) (fun hc => hc)
        · cases hm
      · rw [if_pos e2] at h2
        injection h2 with h2
        subst h2
        rw [if_neg e1] at h1
        rcases o2 with he | hm
        · rw [e2] at he
          subst he
          exact absurd (hown p₁ r₁ h1 o1) (fun hc => hc)
        · cases hm
      · rw [if_neg e1] at h1
        rw [if_neg e2] at h2
        exact h.uniqueOwner p₁ r₁ p₂ r₂ x h1 h2 o1 o2
  · have hlk : ∀ k, alookup (ainsert s.nodes n a) k = alookup s.nodes k := by
      intro k
      rw [alookup_ainsert]
      by_cases hk : k = n
      · rw [if_pos hk, hk, hn]
      · rw [if_neg hk]
    have hnone : ¬ (alookup s.nodes n).isNone := by rw [hn]; simp
    simp only [PeerList.add, if_neg hnone]
    refine ⟨?_, ?_, ?_, ?_, ?_⟩
    · intro k b hb
      rw [hlk] at hb
      exact h.nodesPeers k b hb
    · intro b r hr
      rw [hlk]
      exact h.peersNodes b r hr
    · exact h.ownsAddr
    · intro x m hm
      obtain ⟨p, r, h1, h2, h3⟩ := h.addrOwner x m hm
      exact ⟨p, r, by rw [hlk]; exact h1, h2, h3⟩
    · exact h.uniqueOwner

theorem PLInv.makePrimaryOp {s : PeerList} (h : PLInv s) (n a : Nat)
    (hok : alookup s.addresses a = none ∨ alookup s.addresses a = some n) :
    PLInv (s.make_primary n a) := by
  unfold PeerList.make_primary
  split
  next hsome => exact h
  next hsome =>
    have hpa' : alookup s.peers a = none := by
      cases hv : alookup s.peers a with
      | none => rfl
      | some r => rw [hv] at hsome; simp at hsome
    split
    next => exact h
    next old_addr hn =>
      split
      next hq =>
        obtain ⟨r, hro, _⟩ := h.nodesPeers n old_addr hn
        rw [hq] at hro
        cases hro
      next peer hq =>
        obtain ⟨r, hro, hrid⟩ := h.nodesPeers n old_addr hn
        rw [hq] at hro
        injection hro with hro
        subst hro
        have hao : a ≠ old_addr := by
          intro he
          rw [he, hq] at hpa'
          cases hpa'
        have hnotown : ∀ p r', alookup s.peers p = some r' → owns p r' a →
            p = old_addr := by
          intro p r' hp ho
          rcases hok with ha | ha
          · have hx := h.ownsAddr p r' a hp ho
            rw [ha] at hx
            cases hx
          · obtain ⟨q, r'', hq1, hq2, hq3⟩ := h.addrOwner a n ha
            rw [hn] at hq1
            injection hq1 with hq1
            subst hq1
            exact h.uniqueOwner p r' old_addr r'' a hp hq2 ho hq3
        have hnodes : ∀ k, alookup (ainsert (aremove s.nodes n) n a) k =
            if k = n then some a else alookup s.nodes k := by
          intro k
          rw [alookup_ainsert, alookup_aremove]
          by_cases hk : k = n
          · simp [hk]
          · simp [hk]
        have hpeers : ∀ (v : PeerData) k,
            alookup (ainsert (aremove s.peers old_addr) a v) k =
              if k = a then some v
              else if k = old_addr then none else alookup s.peers k := by
          intro v k
          rw [alookup_ainsert, alookup_aremove]
        refine ⟨?_, ?_, ?_, ?_, ?_⟩
        · intro k b hb
          rw [hnodes] at hb
          by_cases hk : k = n
          · rw [hk, if_pos rfl] at hb
            injection hb with hb
            subst hb
            rw [hk]
            exact ⟨_, alookup_ainsert_self _ _ _, hrid⟩
          · rw [if_neg hk] at hb
            obtain ⟨rr, hrr, hid⟩ := h.nodesPeers k b hb
            have hba : b ≠ a := by
              intro he
              rw [he, hpa'] at hrr
              cases hrr
            have hbo : b ≠ old_addr := by
              intro he
              rw [he, hq] at hrr
              injection hrr with hrr
              rw [← hrr] at hid
              exact hk (hid ▸ hrid)
            exact ⟨rr, by rw [hpeers, if_neg hba, if_neg hbo]; exact hrr, hid⟩
        · intro b rr hb
          rw [hpeers] at hb
          by_cases hba : b = a
          · rw [if_pos hba] at hb
            injection hb with hb
            subst hb
            rw [hba, hnodes]
            simp [hrid]
          · rw [if_neg hba] at hb
            by_cases hbo : b = old_addr
            · rw [if_pos hbo] at hb
              cases hb
            · rw [if_neg hbo] at hb
              have hnb := h.peersNodes b rr hb
              have hne : rr.node_id ≠ n := by
                intro he
                rw [he, hn] at hnb
                injection hnb with hnb
                exact hbo hnb.symm
              rw [hnodes, if_neg hne]
              exact hnb
        · intro p rr x hp ho
          rw [hpeers] at hp
          rw [alookup_ainsert]
          by_cases hx : x = a
          · simp [hx]
          · rw [if_neg hx]
            by_cases hpq : p = a
            · rw [if_pos hpq] at hp
              injection hp with hp
              subst hp
              rcases ho with he | hm
              · exact absurd (he.trans hpq) hx
              · rcases List.mem_append.mp hm with h5 | h5
                · have hxr : x ∈ peer.alt_addrs := (List.mem_filter.mp h5).1
                  exact h.ownsAddr old_addr peer x hq (Or.inr hxr)
                · have hxo : x = old_addr := by simpa using h5
                  rw [hxo]
                  exact h.ownsAddr old_addr peer old_addr hq (Or.inl rfl)
            · rw [if_neg hpq] at hp
              by_cases hpo : p = old_addr
              · rw [if_pos hpo] at hp
                cases hp
              · rw [if_neg hpo] at hp
                exact h.ownsAddr p rr x hp ho
        · intro x m hm
          rw [alookup_ainsert] at hm
          by_cases hx : x = a
          · rw [if_pos hx] at hm
            injection hm with hm
            subst hm
            exact ⟨a, _, by rw [hnodes]; simp, alookup_ainsert_self _ _ _, Or.inl hx⟩
          · rw [if_neg hx] at hm
            obtain ⟨p, rr, h1, h2, h3⟩ := h.addrOwner x m hm
            by_cases hmn : m = n
            · rw [hmn, hn] at h1
              injection h1 with h1
              subst h1
              rw [hq] at h2
              injection h2 with h2
              subst h2
              refine ⟨a, _, by rw [hmn, hnodes]; simp, alookup_ainsert_self _ _ _, ?_⟩
              rcases h3 with he | hmem2
              · exact Or.inr (List.mem_append.mpr (Or.inr (by simp [he])))
              · exact Or.inr (List.mem_append.mpr
                  (Or.inl (List.mem_filter.mpr ⟨hmem2, by simpa using hx⟩)))
            · have hpo : p ≠ old_addr := by
                intro he
                rw [he] at h1
                obtain ⟨rm, hrm, hrmid⟩ := h.nodesPeers m old_addr h1
                rw [hq] at hrm
                injection hrm with hrm
                rw [← hrm] at hrmid
                exact hmn (hrmid ▸ hrid)
              have hpna : p ≠ a := by
                intro he
                rw [he, hpa'] at h2
                cases h2
              exact ⟨p, rr, by rw [hnodes, if_neg hmn]; exact h1,
                by rw [hpeers, if_neg hpna, if_neg hpo]; exact h2, h3⟩
        · intro p₁ r₁ p₂ r₂ x h1 h2 o1 o2
          rw [hpeers] at h1 h2
          by_cases e1 : p₁ = a <;> by_cases e2 : p₂ = a
          · rw [e1, e2]
          · exfalso
            rw [if_pos e1] at h1
            injection h1 with h1
            subst h1
            rw [if_neg e2] at h2
            by_cases f2 : p₂ = old_addr
            · rw [if_pos f2] at h2
              cases h2
            · rw [if_neg f2] at h2
              rcases o1 with he | hm
              · rw [he.trans e1] at o2
                exact f2 (hnotown p₂ r₂ h2 o2)
              · rcases List.mem_append.mp hm with h5 | h5
                · have hxr : x ∈ peer.alt_addrs := (List.mem_filter.mp h5).1
                  exact f2 (h.uniqueOwner p₂ r₂ old_addr peer x h2 hq o2 (Or.inr hxr))
                · have hxo : x = old_addr := by simpa using h5
                  rw [hxo] at o2
                  exact f2 (h.uniqueOwner p₂ r₂ old_addr peer old_addr h2 hq o2 (Or.inl rfl))
          · exfalso
            rw [if_pos e2] at h2
            injection h2 with h2
            subst h2
            rw [if_neg e1] at h1
            by_cases f1 : p₁ = old_addr
            · rw [if_pos f1] at h1
              cases h1
            · rw [if_neg f1] at h1
              rcases o2 with he | hm
              · rw [he.trans e2] at o1
                exact f1 (hnotown p₁ r₁ h1 o1)
              · rcases List.mem_append.mp hm with h5 | h5
                · have hxr : x ∈ peer.alt_addrs := (List.mem_filter.mp h5).1
                  exact f1 (h.uniqueOwner p₁ r₁ old_addr peer x h1 hq o1 (Or.inr hxr))
                · have hxo : x = old_addr := by simpa using h5
                  rw [hxo] at o1
                  exact f1 (h.uniqueOwner p₁ r₁ old_addr peer old_addr h1 hq o1 (Or.inl rfl))
          · rw [if_neg e1] at h1
            rw [if_neg e2] at h2
            by_cases f1 : p₁ = old_addr
            · rw [if_pos f1] at h1
              cases h1
            · by_cases f2 : p₂ = old_addr
              · rw [if_pos f2] at h2
                cases h2
              · rw [if_neg f1] at h1
                rw [if_neg f2] at h2
                exact h.uniqueOwner p₁ r₁ p₂ r₂ x h1 h2 o1 o2

theorem PLInv.refreshOp {s : PeerList} (h : PLInv s) (now : Int) (addr : Nat) :
    PLInv (s.refresh now addr) := by
  unfold PeerList.refresh
  split
  next data hq =>
    have hpeers : ∀ k,
        alookup (ainsert s.peers addr { data with timeout := now + s.timeout }) k =
          if k = addr then some { data with timeout := now + s.timeout }
          else alookup s.peers k := by
      intro k
      rw [alookup_ainsert]
    refine ⟨?_, ?_, ?_, ?_, ?_⟩
    · intro k b hb
      obtain ⟨rr, hrr, hid⟩ := h.nodesPeers k b hb
      by_cases hba : b = addr
      · rw [hba, hq] at hrr
        injection hrr with hrr
        subst hrr
        refine ⟨{ data with timeout := now + s.timeout }, ?_, ?_⟩
        · rw [hpeers, if_pos hba]
        · exact hid
      · exact ⟨rr, by rw [hpeers, if_neg hba]; exact hrr, hid⟩
    · intro b rr hb
      rw [hpeers] at hb
      by_cases hba : b = addr
      · rw [if_pos hba] at hb
        injection hb with hb
        subst hb
        have := h.peersNodes addr data hq
        simpa [hba] using this
      · rw [if_neg hba] at hb
        exact h.peersNodes b rr hb
    · intro p rr x hp ho
      rw [hpeers] at hp
      by_cases hpq : p = addr
      · rw [if_pos hpq] at hp
        injection hp with hp
        subst hp
        refine h.ownsAddr addr data x (by rw [← hpq]; exact (hpq ▸ hq)) ?_
        rcases ho with he | hm
        · exact Or.inl (he.trans hpq)
        · exact Or.inr hm
      · rw [if_neg hpq] at hp
        exact h.ownsAddr p rr x hp ho
    · intro x m hm
      obtain ⟨p, rr, h1, h2, h3⟩ := h.addrOwner x m hm
      by_cases hpq : p = addr
      · rw [hpq, hq] at h2
        injection h2 with h2
        subst h2
        refine ⟨p, _, h1, by rw [hpeers, if_pos hpq], ?_⟩
        rcases h3 with he | hmem
        · exact Or.inl he
        · exact Or.inr hmem
      · exact ⟨p, rr, h1, by rw [hpeers, if_neg hpq]; exact h2, h3⟩
    · intro p₁ r₁ p₂ r₂ x h1 h2 o1 o2
      rw [hpeers] at h1 h2
      by_cases e1 : p₁ = addr
      · rw [if_pos e1] at h1
        injection h1 with h1
        subst h1
        by_cases e2 : p₂ = addr
        · rw [e1, e2]
        · rw [if_neg e2] at h2
          refine h.uniqueOwner p₁ data p₂ r₂ x (e1 ▸ hq) h2 ?_ o2
          rcases o1 with he | hm
          · exact Or.inl he
          · exact Or.inr hm
      · rw [if_neg e1] at h1
        by_cases e2 : p₂ = addr
        · rw [if_pos e2] at h2
          injection h2 with h2
          subst h2
          refine h.uniqueOwner p₁ r₁ p₂ data x h1 (e2 ▸ hq) o1 ?_
          rcases o2 with he | hm
          · exact Or.inl he
          · exact Or.inr hm
        · rw [if_neg e2] at h2
          exact h.uniqueOwner p₁ r₁ p₂ r₂ x h1 h2 o1 o2
  next hq => exact h

theorem PLInv.removeOp {s : PeerList} (h : PLInv s) (a : Nat) :
    PLInv (s.remove a) := by
  unfold PeerList.remove
  split
  next hq => exact h
  next data hq =>
    have haddr : ∀ k,
        alookup (data.alt_addrs.foldl (fun m x => aremove m x) (aremove s.addresses a)) k =
          if k = a ∨ k ∈ data.alt_addrs then none else alookup s.addresses k := by
      intro k
      rw [alookup_foldl_aremove, alookup_aremove]
      by_cases h1 : k ∈ data.alt_addrs
      · simp [h1]
      · by_cases h2 : k = a
        · simp [h1, h2]
        · simp [h1, h2]
    have hself := h.peersNodes a data hq
    refine ⟨?_, ?_, ?_, ?_, ?_⟩
    · intro k b hb
      rw [alookup_aremove] at hb
      by_cases hk : k = data.node_id
      · rw [if_pos hk] at hb
        cases hb
      · rw [if_neg hk] at hb
        obtain ⟨rr, hrr, hid⟩ := h.nodesPeers k b hb
        have hba : b ≠ a := by
          intro he
          rw [he, hq] at hrr
          injection hrr with hrr
          rw [← hrr] at hid
          exact hk hid.symm
        exact ⟨rr, by rw [alookup_aremove, if_neg hba]; exact hrr, hid⟩
    · intro b rr hb
      rw [alookup_aremove] at hb
      by_cases hba : b = a
      · rw [if_pos hba] at hb
        cases hb
      · rw [if_neg hba] at hb
        have hnb := h.peersNodes b rr hb
        have hne : rr.node_id ≠ data.node_id := by
          intro he
          rw [he, hself] at hnb
          injection hnb with hnb
          exact hba hnb.symm
        rw [alookup_aremove, if_neg hne]
        exact hnb
    · intro p rr x hp ho
      rw [alookup_aremove] at hp
      by_cases hpa : p = a
      · rw [if_pos hpa] at hp
        cases hp
      · rw [if_neg hpa] at hp
        have hx := h.ownsAddr p rr x hp ho
        rw [haddr]
        have hnot : ¬ (x = a ∨ x ∈ data.alt_addrs) := by
          rintro (he | hm)
          · exact hpa (h.uniqueOwner p rr a data x hp hq ho (Or.inl he))
          · exact hpa (h.uniqueOwner p rr a data x hp hq ho (Or.inr hm))
        rw [if_neg hnot]
        exact hx
    · intro x m hm
      rw [haddr] at hm
      by_cases hcond : x = a ∨ x ∈ data.alt_addrs
      · rw [if_pos hcond] at hm
        cases hm
      · rw [if_neg hcond] at hm
        obtain ⟨p, rr, h1, h2, h3⟩ := h.addrOwner x m hm
        have hpa : p ≠ a := by
          intro he
          rw [he, hq] at h2
          injection h2 with h2
          subst h2
          exact hcond (by
            rcases h3 with he2 | hm2
            · exact Or.inl (he2.trans he)
            · exact Or.inr hm2)
        have hmne : m ≠ data.node_id := by
          intro he
          rw [he, hself] at h1
          injection h1 with h1
          exact hpa h1.symm
        exact ⟨p, rr, by rw [alookup_aremove, if_neg hmne]; exact h1,
          by rw [alookup_aremove, if_neg hpa]; exact h2, h3⟩
    · intro p₁ r₁ p₂ r₂ x h1 h2 o1 o2
      rw [alookup_aremove] at h1 h2
      by_cases e1 : p₁ = a
      · rw [if_pos e1] at h1
        cases h1
      · rw [if_neg e1] at h1
        by_cases e2 : p₂ = a
        · rw [if_pos e2] at h2
          cases h2
        · rw [if_neg e2] at h2
          exact h.uniqueOwner p₁ r₁ p₂ r₂ x h1 h2 o1 o2

theorem PLInv.foldRemove (l : List Nat) :
    ∀ (s : PeerList), PLInv s → PLInv (l.foldl (fun st a => st.remove a) s) := by
  induction l with
  | nil => intro s hs; exact hs
  | cons x t ih => intro s hs; exact ih _ (hs.removeOp x)

theorem PLInv.timeoutAll {s : PeerList} (h : PLInv s) (now : Int) :
    PLInv (s.timeoutOp now) := by
  unfold PeerList.timeoutOp
  exact PLInv.foldRemove _ s h

/-- Precondition of an operation under which the code preserves coherence:
`add` must be called with an unknown node id and an unknown address (or as an
exact re-add of a node with its current primary), and `make_primary` with an
address that is not already associated with a different node. The remaining
operations need no precondition. -/
def opOK (s : PeerList) : PLOp → Prop
  | .add _ n a => (alookup s.nodes n = none ∧ alookup s.addresses a = none) ∨
      alookup s.nodes n = some a
  | .makePrimary n a => alookup s.addresses a = none ∨ alookup s.addresses a = some n
  | .refresh _ _ => True
  | .remove _ => True
  | .timeoutAll _ => True

instance instDecOpOK (s : PeerList) (op : PLOp) : Decidable (opOK s op) := by
  cases op <;> simp only [opOK] <;> infer_instance

def opsOK (s : PeerList) : List PLOp → Prop
  | [] => True
  | op :: rest => opOK s op ∧ opsOK (applyOp s op) rest

instance instDecOpsOK (s : PeerList) (ops : List PLOp) : Decidable (opsOK s ops) :=
  match ops with
  | [] => isTrue trivial
  | op :: rest =>
    @instDecidableAnd _ _ (instDecOpOK s op) (instDecOpsOK (applyOp s op) rest)

theorem PLInv.applyOpOK {s : PeerList} (h : PLInv s) (op : PLOp)
    (hok : opOK s op) : PLInv (applyOp s op) := by
  cases op with
  | add now n a => exact h.addOp now n a hok
  | makePrimary n a => exact h.makePrimaryOp n a hok
  | refresh now a => exact h.refreshOp now a
  | remove a => exact h.removeOp a
  | timeoutAll now => exact h.timeoutAll now

theorem PLInv.applyOpsOK : ∀ (ops : List PLOp) (s : PeerList),
    PLInv s → opsOK s ops → PLInv (applyOps s ops) := by
  intro ops
  induction ops with
  | nil => intro s hs _; exact hs
  | cons op rest ih =>
    intro s hs hok
    exact ih (applyOp s op) (hs.applyOpOK op hok.1) hok.2

/-- Claim C1 (counterexample): starting from an empty PeerList, the
operation sequence add(1, 5); add(2, 5) — two fresh node ids claiming the
same address — leaves the three indices incoherent: the NodeId index maps
node 1 to address 5, but the record at address 5 belongs to node 2, so the
NodeId index and the primary-address index are not mutual inverses. -/
theorem peerlist_coherence_cex :
    ¬ Coherent (applyOps (PeerList.new 100) [.add 0 1 5, .add 0 2 5]) := by
  intro h
  obtain ⟨r, hr, hid⟩ := (h.1 1 5).mp (by decide)
  have he : alookup (applyOps (PeerList.new 100) [.add 0 1 5, .add 0 2 5]).peers 5 =
      some { timeout := 100, node_id := 2, alt_addrs := [] } := by decide
  rw [he] at hr
  injection hr with hr
  rw [← hr] at hid
  simp at hid

/-- Claim C1 (amended): for every sequence of PeerList operations (add,
make_primary, refresh, remove, timeout) starting from an empty PeerList, the
three indices stay coherent — the NodeId-to-primary-address map and the
primary-address-to-PeerRecord map are mutual inverses, and an address is in
the any-known index iff it is the primary or an alternate of some
PeerRecord — provided every add is invoked with an unknown node id and an
unknown address (or re-adds a node with its current primary address), and
every make_primary is invoked with an address that is not currently
associated with a different node. -/
theorem peerlist_ops_coherent (t : Int) (ops : List PLOp)
    (h : opsOK (PeerList.new t) ops) : Coherent (applyOps (PeerList.new t) ops) :=
  (PLInv.applyOpsOK ops (PeerList.new t) (PLInv.newList t) h).coherent

theorem peerlist_ops_coherent_witness :
    opsOK (PeerList.new 100)
      [.add 0 1 5, .makePrimary 1 6, .refresh 2 6, .add 3 2 7, .remove 7,
        .timeoutAll 1000] ∧
    Coherent (applyOps (PeerList.new 100)
      [.add 0 1 5, .makePrimary 1 6, .refresh 2 6, .add 3 2 7, .remove 7,
        .timeoutAll 1000]) :=
  ⟨by decide, peerlist_ops_coherent 100 _ (by decide)⟩

/-- Claim C2 (code divergence): calling add for an already-known node id
with a different address is NOT a no-op. `self.nodes.insert(node_id, addr)`
runs before the freshness check and `HashMap::insert` overwrites the stored
primary address, so the NodeId index is silently rewired while the record
map and the any-known index keep the old address. With the same address the
call does leave the state unchanged. -/
theorem add_known_node_not_noop :
    alookup (((PeerList.new 100).add 0 1 5).add 7 1 6).nodes 1 = some 6 ∧
    ((PeerList.new 100).add 0 1 5).add 7 1 6 ≠ (PeerList.new 100).add 0 1 5 ∧
    (((PeerList.new 100).add 0 1 5).add 7 1 6).peers =
      ((PeerList.new 100).add 0 1 5).peers ∧
    (((PeerList.new 100).add 0 1 5).add 7 1 6).addresses =
      ((PeerList.new 100).add 0 1 5).addresses ∧
    ((PeerList.new 100).add 0 1 5).add 7 1 5 = (PeerList.new 100).add 0 1 5 := by
  decide

/-!
Claim C9: make_primary is idempotent. The three reduction lemmas below
compute make_primary on each of its control paths.
-/

theorem make_primary_of_peers_some (s : PeerList) (n a : Nat)
    (h : (alookup s.peers a).isSome) : s.make_primary n a = s := by
  unfold PeerList.make_primary
  rw [if_pos h]

theorem make_primary_of_nodes_none (s : PeerList) (n a : Nat)
    (h1 : ¬ (alookup s.peers a).isSome) (h2 : alookup s.nodes n = none) :
    s.make_primary n a = s := by
  unfold PeerList.make_primary
  rw [if_neg h1]
  simp only [h2]

theorem make_primary_of_no_old (s : PeerList) (n a old : Nat)
    (h1 : ¬ (alookup s.peers a).isSome) (h2 : alookup s.nodes n = some old)
    (h3 : alookup s.peers old = none) :
    s.make_primary n a = { s with nodes := ainsert (aremove s.nodes n) n a } := by
  unfold PeerList.make_primary
  rw [if_neg h1]
  simp only [h2, h3]

theorem make_primary_of_full (s : PeerList) (n a old : Nat) (r : PeerData)
    (h1 : ¬ (alookup s.peers a).isSome) (h2 : alookup s.nodes n = some old)
    (h3 : alookup s.peers old = some r) :
    s.make_primary n a =
      { s with
        nodes := ainsert (aremove s.nodes n) n a,
        peers := ainsert (aremove s.peers old) a
          { r with alt_addrs := r.alt_addrs.filter (fun i => i ≠ a) ++ [old] },
        addresses := ainsert s.addresses a n } := by
  unfold PeerList.make_primary
  rw [if_neg h1]
  simp only [h2, h3]

/-- Claim C9: for every NodeId, address and PeerList state, two successive
make_primary calls leave the state equal to one call. This holds on every
control path, including the degenerate paths that log an error. -/
theorem make_primary_idem (s : PeerList) (n a : Nat) :
    (s.make_primary n a).make_primary n a = s.make_primary n a := by
  by_cases h1 : (alookup s.peers a).isSome
  · rw [make_primary_of_peers_some s n a h1, make_primary_of_peers_some s n a h1]
  · cases hn : alookup s.nodes n with
    | none =>
      rw [make_primary_of_nodes_none s n a h1 hn,
        make_primary_of_nodes_none s n a h1 hn]
    | some old =>
      cases hq : alookup s.peers old with
      | none =>
        rw [make_primary_of_no_old s n a old h1 hn hq]
        have hq2 : alookup s.peers a = none := Option.not_isSome_iff_eq_none.mp h1
        have h1' : ¬ (alookup
            ({ s with nodes := ainsert (aremove s.nodes n) n a } : PeerList).peers
            a).isSome := h1
        have hn' : alookup
            ({ s with nodes := ainsert (aremove s.nodes n) n a } : PeerList).nodes
            n = some a := alookup_ainsert_self _ _ _
        have hq' : alookup
            ({ s with nodes := ainsert (aremove s.nodes n) n a } : PeerList).peers
            a = none := hq2
        rw [make_primary_of_no_old
          ({ s with nodes := ainsert (aremove s.nodes n) n a } : PeerList)
          n a a h1' hn' hq']
        have hkeys : ∀ p ∈ aremove s.nodes n, p.1 ≠ n := aremove_keys s.nodes n
        have e2 : aremove (ainsert (aremove s.nodes n) n a) n = aremove s.nodes n := by
          rw [ainsert_of_keys_ne _ _ _ hkeys, aremove_append,
            aremove_of_keys_ne _ _ hkeys]
          simp [aremove]
        show ({ s with
            nodes := ainsert (aremove (ainsert (aremove s.nodes n) n a) n) n a } :
          PeerList) = { s with nodes := ainsert (aremove s.nodes n) n a }
        rw [e2]
      | some r =>
        rw [make_primary_of_full s n a old r h1 hn hq]
        refine make_primary_of_peers_some _ n a ?_
        show (alookup (ainsert (aremove s.peers old) a
          { r with alt_addrs := r.alt_addrs.filter (fun i => i ≠ a) ++ [old] })
          a).isSome
        rw [alookup_ainsert_self]
        rfl

/-!
ReconnectEntry and the per-entry reconnect update of housekeep
(src/cloud.rs lines 36-37, 194-202, 351-360, 461-492), claims C3 and C4.
`now` and the results of the collaborator calls (is_connected, resolve) are
inputs of each tick. u16 arithmetic on tries and timeout carries an explicit
mod 65536 (the clamp keeps both far from the bound).
-/

def MAX_RECONNECT_INTERVAL : Nat := 3600

def RESOLVE_INTERVAL : Int := 300

/-- ReconnectEntry (src/cloud.rs lines 194-202). -/
structure ReconnectEntry where
  address : String
  resolved : List Nat
  next_resolve : Int
  tries : Nat
  timeout : Nat
  next : Int
  deriving DecidableEq, Repr

/-- add_reconnect_peer (src/cloud.rs lines 351-360). -/
def addReconnectPeer (now : Int) (add : String) : ReconnectEntry :=
  { address := add, tries := 0, timeout := 1, resolved := [],
    next_resolve := now, next := now }

/-- Re-resolution step (src/cloud.rs lines 469-475): when due, adopt the
resolution result if it succeeded and schedule the next resolution. -/
def resolveStep (e : ReconnectEntry) (now : Int) (res : Option (List Nat)) :
    ReconnectEntry :=
  if e.next_resolve ≤ now then
    { (match res with
       | some addrs => { e with resolved := addrs }
       | none => e) with next_resolve := now + RESOLVE_INTERVAL }
  else e

/-- Failure bookkeeping (src/cloud.rs lines 476-491): skip when the next
attempt is in the future; otherwise increment tries, double the timeout
when tries exceeds 10 (resetting tries), clamp at MAX_RECONNECT_INTERVAL
and schedule the next attempt. The source mutates sequentially
(`tries += 1; if tries > 10 {..}; if timeout > MAX {..}; next = now+timeout`);
the two branches below transcribe the combined effect. -/
def backoffStep (e : ReconnectEntry) (now : Int) : ReconnectEntry :=
  if e.next > now then e
  else if (e.tries + 1) % 65536 > 10 then
    { e with
      tries := 0,
      timeout := (if e.timeout * 2 % 65536 > MAX_RECONNECT_INTERVAL
        then MAX_RECONNECT_INTERVAL else e.timeout * 2 % 65536),
      next := now + Int.ofNat (if e.timeout * 2 % 65536 > MAX_RECONNECT_INTERVAL
        then MAX_RECONNECT_INTERVAL else e.timeout * 2 % 65536) }
  else
    { e with
      tries := (e.tries + 1) % 65536,
      timeout := (if e.timeout > MAX_RECONNECT_INTERVAL
        then MAX_RECONNECT_INTERVAL else e.timeout),
      next := now + Int.ofNat (if e.timeout > MAX_RECONNECT_INTERVAL
        then MAX_RECONNECT_INTERVAL else e.timeout) }

/-- One iteration of the reconnect loop body (src/cloud.rs lines 461-492):
a connected entry is fully reset, everything else goes through resolution
and failure bookkeeping. -/
def tickEntry (e : ReconnectEntry) (now : Int) (connected : Bool)
    (res : Option (List Nat)) : ReconnectEntry :=
  if connected then { e with tries := 0, timeout := 1, next := now + 1 }
  else backoffStep (resolveStep e now res) now

/-- Inputs of one housekeep tick for one reconnect entry. -/
structure TickInput where
  now : Int
  connected : Bool
  res : Option (List Nat)
  deriving DecidableEq, Repr

def applyTicks (e : ReconnectEntry) (ts : List TickInput) : ReconnectEntry :=
  ts.foldl (fun e t => tickEntry e t.now t.connected t.res) e

/-- The k-th failing attempt of a run in which every tick is due: attempts
are spaced 3600 seconds apart (not less than any possible backoff), the
entry is never connected, and resolution always fails. -/
def failTick (i : Nat) : TickInput :=
  { now := 3600 * ((i : Int) + 1), connected := false, res := none }

/-- A run of k consecutive failing attempts. -/
def failTicks (k : Nat) : List TickInput :=
  (List.range k).map failTick

/-- The backoff in effect after the k-th consecutive failing dial attempt
of a never-connected entry. -/
def backoffApplied (k : Nat) : Nat :=
  (applyTicks (addReconnectPeer 0 "x") (failTicks k)).timeout

theorem resolveStep_timeout (e : ReconnectEntry) (now : Int)
    (res : Option (List Nat)) : (resolveStep e now res).timeout = e.timeout := by
  unfold resolveStep
  by_cases h : e.next_resolve ≤ now
  · rw [if_pos h]
    cases res <;> rfl
  · rw [if_neg h]

/-- The set of backoff values reachable in the code: powers of two up to
2048, plus the clamp value 3600. -/
def validTimeouts : List Nat :=
  [1, 2, 4, 8, 16, 32, 64, 128, 256, 512, 1024, 2048, 3600]

theorem backoffStep_mem (e : ReconnectEntry) (now : Int)
    (he : e.timeout ∈ validTimeouts) :
    (backoffStep e now).timeout ∈ validTimeouts := by
  have key : ∀ t ∈ validTimeouts,
      (if t * 2 % 65536 > MAX_RECONNECT_INTERVAL
        then MAX_RECONNECT_INTERVAL else t * 2 % 65536) ∈ validTimeouts ∧
      (if t > MAX_RECONNECT_INTERVAL
        then MAX_RECONNECT_INTERVAL else t) ∈ validTimeouts := by decide
  unfold backoffStep
  by_cases h : e.next > now
  · rw [if_pos h]
    exact he
  · rw [if_neg h]
    by_cases h2 : (e.tries + 1) % 65536 > 10
    · rw [if_pos h2]
      exact (key e.timeout he).1
    · rw [if_neg h2]
      exact (key e.timeout he).2

theorem tickEntry_mem (e : ReconnectEntry) (now : Int) (connected : Bool)
    (res : Option (List Nat)) (he : e.timeout ∈ validTimeouts) :
    (tickEntry e now connected res).timeout ∈ validTimeouts := by
  unfold tickEntry
  by_cases hc : connected = true
  · rw [if_pos hc]
    simp [validTimeouts]
  · rw [if_neg hc]
    exact backoffStep_mem (resolveStep e now res) now
      (by rw [resolveStep_timeout]; exact he)

theorem applyTicks_mem : ∀ (ts : List TickInput) (e : ReconnectEntry),
    e.timeout ∈ validTimeouts → (applyTicks e ts).timeout ∈ validTimeouts := by
  intro ts
  induction ts with
  | nil => intro e he; exact he
  | cons t rest ih =>
    intro e he
    exact ih _ (tickEntry_mem e t.now t.connected t.res he)

theorem failTicks_add (a b : Nat) :
    failTicks (a + b) = failTicks a ++ (List.range b).map (fun i => failTick (a + i)) := by
  unfold failTicks
  rw [List.range_add, List.map_append, List.map_map]
  rfl

theorem applyTicks_append (e : ReconnectEntry) (l1 l2 : List TickInput) :
    applyTicks e (l1 ++ l2) = applyTicks (applyTicks e l1) l2 := by
  unfold applyTicks
  rw [List.foldl_append]

set_option maxRecDepth 3000 in
theorem applyTicks_fail44 :
    applyTicks (addReconnectPeer 0 "x") (failTicks 44) =
      { address := "x", resolved := [], next_resolve := 158700, tries := 0,
        timeout := 16, next := 158416 } := by
  decide

set_option maxRecDepth 3000 in
theorem applyTicks_fail88 :
    applyTicks
      { address := "x", resolved := [], next_resolve := 158700, tries := 0,
        timeout := 16, next := 158416 }
      ((List.range 44).map (fun i => failTick (44 + i))) =
      { address := "x", resolved := [], next_resolve := 317100, tries := 0,
        timeout := 256, next := 317056 } := by
  decide

set_option maxRecDepth 3000 in
theorem applyTicks_fail132 :
    applyTicks
      { address := "x", resolved := [], next_resolve := 317100, tries := 0,
        timeout := 256, next := 317056 }
      ((List.range 44).map (fun i => failTick (88 + i))) =
      { address := "x", resolved := [], next_resolve := 475500, tries := 0,
        timeout := 3600, next := 478800 } := by
  decide

theorem backoffApplied_132 : backoffApplied 132 = 3600 := by
  unfold backoffApplied
  rw [show (132 : Nat) = 44 + 44 + 44 by norm_num]
  rw [failTicks_add, applyTicks_append, failTicks_add, applyTicks_append]
  rw [applyTicks_fail44, applyTicks_fail88]
  rw [show ((List.range 44).map (fun i => failTick (44 + 44 + i))) =
    ((List.range 44).map (fun i => failTick (88 + i))) from rfl]
  rw [applyTicks_fail132]

set_option maxRecDepth 3000 in
/-- Claim C3 (counterexample): the backoff applied after the 21st
consecutive failing attempt is 2, not 4 as claimed. -/
theorem backoff_attempt21_cex : backoffApplied 21 = 2 ∧ backoffApplied 21 ≠ 4 := by
  decide

set_option maxRecDepth 3000 in
/-- Claim C3 (amended): for a never-connected entry whose dial attempts all
fail, attempts 1-10 apply backoff 1, attempts 11-21 apply backoff 2
(the doubling fires on the 11th try after each reset of the counter, and
the counter restarts at 0 when it fires), and attempt 22 applies backoff 4;
after a tick that finds the entry connected, the backoff is 1 and the
failure counter is 0. -/
theorem backoff_sequence :
    (List.range 22).map (fun i => backoffApplied (i + 1)) =
      [1, 1, 1, 1, 1, 1, 1, 1, 1, 1, 2, 2, 2, 2, 2, 2, 2, 2, 2, 2, 2, 4] ∧
    (∀ (e : ReconnectEntry) (now : Int) (res : Option (List Nat)),
      (tickEntry e now true res).timeout = 1 ∧ (tickEntry e now true res).tries = 0) := by
  refine ⟨by decide, ?_⟩
  intro e now res
  exact ⟨rfl, rfl⟩

/-- Claim C4 (counterexample): after 132 consecutive failing attempts the
backoff equals the clamp value 3600, which is not a power of two, so the
backoff does not always lie in {1,2,4,...} ∩ [1,3600]. -/
theorem backoff_clamp_cex :
    backoffApplied 132 = 3600 ∧ ¬ (∃ i : Nat, 2 ^ i = 3600) := by
  refine ⟨backoffApplied_132, ?_⟩
  rintro ⟨i, hi⟩
  have hle : i ≤ 11 := by
    by_contra hgt
    have h12 : (12 : Nat) ≤ i := by omega
    have h2 : (2 : Nat) ^ 12 ≤ 2 ^ i := Nat.pow_le_pow_right (by norm_num) h12
    rw [hi] at h2
    norm_num at h2
  interval_cases i <;> norm_num at hi

/-- Claim C4 (amended): for every reconnect entry, after any number of
housekeep ticks the backoff is a power of two in [1, 2048] or the clamp
value 3600, and immediately after a tick in which the entry is found
connected the backoff equals 1. -/
theorem backoff_always_valid :
    (∀ (t0 : Int) (add : String) (ts : List TickInput),
      (applyTicks (addReconnectPeer t0 add) ts).timeout ∈ validTimeouts) ∧
    (∀ (e : ReconnectEntry) (now : Int) (res : Option (List Nat)),
      (tickEntry e now true res).timeout = 1) := by
  refine ⟨?_, fun e now res => rfl⟩
  intro t0 add ts
  exact applyTicks_mem ts (addReconnectPeer t0 add) (by simp [addReconnectPeer, validTimeouts])

/-!
The cloud engine state and handle_net_message (src/cloud.rs lines 205-230,
384-417, 639-701), claims C5, C6, C7, and the gossip step of housekeep
(lines 439-453) with PeerList::subset (lines 167-170), claim C8.

Collaborators are embedded as follows: the inner-frame parser `P::parse` is
a function argument; the device is a log of `write` calls plus a flag for
the outcome of the current write; the forwarding table is a log of the
`learn` / `remove_all` calls made on it; sending a UDP message appends to a
log of (destination, message) pairs. Traffic accounting and the message
codec are out of scope of the claims.
-/

/-- An announced subnet range (base address and prefix length). -/
structure Range where
  base : Nat
  prefix_len : Nat
  deriving DecidableEq, Repr

/-- Message (udpmessage.rs), as consumed by handle_net_message: Data with
payload bounds, Peers with an address list, the two-stage Init, Close. -/
inductive Message where
  | Data (payload : List Nat) (start stop : Nat)
  | Peers (peers : List Nat)
  | Init (stage : Nat) (node_id : Nat) (ranges : List Range)
  | Close
  deriving DecidableEq, Repr

/-- A call made on the forwarding table collaborator. -/
inductive TableOp where
  | learn (addr : Nat) (prefix_len : Option Nat) (peer : Nat)
  | removeAll (peer : Nat)
  deriving DecidableEq, Repr

/-- The engine state used by handle_net_message and the gossip step of
housekeep (fields of GenericCloud, src/cloud.rs lines 205-230, restricted to
those these paths touch). -/
structure CloudState where
  node_id : Nat
  peers : PeerList
  addresses : List Range
  learning : Bool
  broadcast : Bool
  own_addresses : List Nat
  table : List TableOp
  devWrites : List (List Nat × Nat)
  sent : List (Nat × Message)
  next_peerlist : Int
  update_freq : Int
  deriving DecidableEq, Repr

/-- send_msg (src/cloud.rs lines 312-327), as the effect on the send log. -/
def send_msg (st : CloudState) (addr : Nat) (msg : Message) : CloudState :=
  { st with sent := st.sent ++ [(addr, msg)] }

/-- connect_sock (src/cloud.rs lines 408-417): no message when the address
is already a known peer address or one of our own. -/
def connect_sock (st : CloudState) (addr : Nat) : CloudState :=
  if st.peers.contains_addr addr ∨ addr ∈ st.own_addresses then st
  else send_msg st addr (.Init 0 st.node_id st.addresses)

/-- The peer-list mutation of the Init branch (src/cloud.rs lines 677-685):
known node ids migrate via make_primary, unknown ones are added and their
announced ranges learned. -/
def init_update (st : CloudState) (now : Int) (node_id : Nat) (peer : Nat)
    (ranges : List Range) : CloudState :=
  if st.peers.contains_node node_id then
    { st with peers := st.peers.make_primary node_id peer }
  else
    { st with
      peers := st.peers.add now node_id peer,
      table := st.table ++ ranges.map (fun r => .learn r.base (some r.prefix_len) peer) }

/-- handle_net_message (src/cloud.rs lines 639-701). `parse` is the inner
parser collaborator; `devOk` is the outcome of the device write on the Data
path; `now` is the clock value for expiry updates. -/
def handle_net_message (parse : List Nat → Except Unit (Nat × Nat))
    (devOk : Bool) (now : Int) (st : CloudState) (peer : Nat) (msg : Message) :
    Except Unit CloudState :=
  match msg with
  | .Data payload start stop =>
    match parse ((payload.drop start).take (stop - start)) with
    | .error e => .error e
    | .ok (src, _dst) =>
      if devOk then
        if st.learning then
          .ok { st with
            devWrites := st.devWrites ++ [(payload.take stop, start)],
            table := st.table ++ [.learn src none peer] }
        else
          .ok { st with devWrites := st.devWrites ++ [(payload.take stop, start)] }
      else .error ()
  | .Peers ps =>
    let st1 := if st.peers.contains_addr peer then st else connect_sock st peer
    let st2 := match st1.peers.get_node_id peer with
      | some nid => { st1 with peers := st1.peers.make_primary nid peer }
      | none => st1
    let st3 := ps.foldl (fun s p => connect_sock s p) st2
    .ok { st3 with peers := st3.peers.refresh now peer }
  | .Init stage node_id ranges =>
    if node_id = st.node_id then
      .ok { st with own_addresses := st.own_addresses ++ [peer] }
    else if stage = 0 then
      .ok (send_msg
        (send_msg (init_update st now node_id peer ranges) peer
          (.Init (stage + 1) st.node_id st.addresses))
        peer (.Peers (init_update st now node_id peer ranges).peers.as_vec))
    else
      .ok (init_update st now node_id peer ranges)
  | .Close =>
    .ok { st with peers := st.peers.remove peer, table := st.table ++ [.removeAll peer] }

/-- PeerList::len (src/cloud.rs lines 156-159). -/
def PeerList.len (s : PeerList) : Nat := s.peers.length

/-- PeerList::subset (src/cloud.rs lines 167-170). The source samples the
primary keys with rand's choose_multiple, which returns `size` distinct
elements drawn from the population, or the whole population when it is
smaller. Modelled from that contract: the randomness is a rotation of the
key list by a seed. -/
def PeerList.subset (s : PeerList) (seed : Nat) (size : Nat) : List Nat :=
  ((s.peers.map (fun p => p.1)).rotate seed).take size

/-- The gossip step of housekeep (src/cloud.rs lines 439-453): when due,
broadcast min(peer count, 20) sampled addresses as one Peers message to
every peer and reschedule by the keepalive interval. -/
def housekeep_gossip (seed : Nat) (now : Int) (st : CloudState) : CloudState :=
  if st.next_peerlist ≤ now then
    { st with
      sent := st.sent ++ st.peers.peers.map
        (fun p => (p.1, Message.Peers (st.peers.subset seed (min st.peers.len 20)))),
      next_peerlist := now + st.update_freq }
  else st

theorem init_update_sent (st : CloudState) (now : Int) (node_id peer : Nat)
    (ranges : List Range) : (init_update st now node_id peer ranges).sent = st.sent := by
  unfold init_update
  split
  · rfl
  · rfl

/-- Claim C6: an Init carrying the local node id only records the source
address in own_addresses; no PeerRecord is created, nothing is learned, and
no reply is sent (every other field of the state is unchanged). -/
theorem init_self_suppression (parse : List Nat → Except Unit (Nat × Nat))
    (devOk : Bool) (now : Int) (st : CloudState) (peer : Nat) (stage : Nat)
    (ranges : List Range) :
    handle_net_message parse devOk now st peer (.Init stage st.node_id ranges) =
      .ok { st with own_addresses := st.own_addresses ++ [peer] } := by
  simp only [handle_net_message, if_true]

/-- Claim C5: on Init(stage, node_id, ranges) from a node other than
ourselves, the handler replies to the sender with exactly two messages in
order — Init(1, own node id, own announced ranges) and then Peers with the
snapshot of all known peer addresses after the sender was recorded — when
stage = 0, and sends nothing when stage is not 0. -/
theorem init_reply (parse : List Nat → Except Unit (Nat × Nat)) (devOk : Bool)
    (now : Int) (st : CloudState) (peer : Nat) (stage node_id : Nat)
    (ranges : List Range) (hne : node_id ≠ st.node_id) :
    ∃ st', handle_net_message parse devOk now st peer (.Init stage node_id ranges) =
        .ok st' ∧
      st'.sent = st.sent ++
        (if stage = 0 then
          [(peer, Message.Init 1 st.node_id st.addresses),
           (peer, Message.Peers st'.peers.as_vec)]
         else []) := by
  simp only [handle_net_message]
  rw [if_neg hne]
  by_cases hs : stage = 0
  · subst hs
    rw [if_pos rfl]
    refine ⟨_, rfl, ?_⟩
    simp [send_msg, init_update_sent]
  · rw [if_neg hs]
    refine ⟨_, rfl, ?_⟩
    simp [hs, init_update_sent]

/-- A minimal concrete engine state, used by the concrete instantiations
below. -/
def emptyCloudState : CloudState :=
  { node_id := 0, peers := PeerList.new 100, addresses := [], learning := true,
    broadcast := false, own_addresses := [], table := [], devWrites := [],
    sent := [], next_peerlist := 0, update_freq := 10 }

theorem init_reply_witness :
    (1 : Nat) ≠ emptyCloudState.node_id ∧
    ∃ st', handle_net_message (fun _ => .error ()) true 0 emptyCloudState 6
        (.Init 0 1 []) = .ok st' ∧
      st'.sent = emptyCloudState.sent ++
        (if (0 : Nat) = 0 then
          [(6, Message.Init 1 emptyCloudState.node_id emptyCloudState.addresses),
           (6, Message.Peers st'.peers.as_vec)]
         else []) :=
  ⟨by decide, init_reply (fun _ => .error ()) true 0 emptyCloudState 6 0 1 []
    (by decide)⟩

/-- Claim C7: on Data from peer P whose inner frame parses to (src, dst),
when the device write succeeds, the payload is written to the device, a
learned-cache entry (src, P) is recorded iff the learning flag is set, and
nothing else changes — in particular P's expiry in the PeerList is not
refreshed and no message is sent. -/
theorem data_fast_path (parse : List Nat → Except Unit (Nat × Nat))
    (now : Int) (st : CloudState) (peer : Nat) (payload : List Nat)
    (start stop src dst : Nat)
    (hp : parse ((payload.drop start).take (stop - start)) = .ok (src, dst)) :
    handle_net_message parse true now st peer (.Data payload start stop) =
      .ok { st with
        devWrites := st.devWrites ++ [(payload.take stop, start)],
        table := st.table ++
          (if st.learning then [TableOp.learn src none peer] else []) } := by
  simp only [handle_net_message, hp]
  cases hl : st.learning <;> simp [hl]

theorem data_fast_path_witness :
    (fun _ => (Except.ok (3, 4) : Except Unit (Nat × Nat)))
        ((([7, 8] : List Nat).drop 0).take (2 - 0)) = Except.ok (3, 4) ∧
    handle_net_message (fun _ => .ok (3, 4)) true 0 emptyCloudState 5
        (.Data [7, 8] 0 2) =
      .ok { emptyCloudState with
        devWrites := emptyCloudState.devWrites ++ [(([7, 8] : List Nat).take 2, 0)],
        table := emptyCloudState.table ++
          (if emptyCloudState.learning then [TableOp.learn 3 none 5] else []) } :=
  ⟨rfl, data_fast_path (fun _ => .ok (3, 4)) 0 emptyCloudState 5 [7, 8] 0 2 3 4 rfl⟩

/-- Claim C8: whenever the gossip timer is due, the Peers message broadcast
by housekeep carries exactly min(peer count, 20) distinct primary peer
addresses, one copy to every peer, and the timer is pushed out by the
keepalive interval. -/
theorem gossip_cap (seed : Nat) (now : Int) (st : CloudState)
    (hfire : st.next_peerlist ≤ now)
    (hnd : (st.peers.peers.map (fun p => p.1)).Nodup) :
    ∃ ps, housekeep_gossip seed now st =
        { st with
          sent := st.sent ++ st.peers.peers.map (fun p => (p.1, Message.Peers ps)),
          next_peerlist := now + st.update_freq } ∧
      ps.length = min st.peers.len 20 ∧ ps.Nodup ∧
      ∀ a ∈ ps, a ∈ st.peers.peers.map (fun p => p.1) := by
  refine ⟨st.peers.subset seed (min st.peers.len 20), ?_, ?_, ?_, ?_⟩
  · unfold housekeep_gossip
    rw [if_pos hfire]
  · unfold PeerList.subset PeerList.len
    rw [List.length_take, List.length_rotate, List.length_map]
    exact min_eq_left (min_le_left _ _)
  · exact (List.nodup_rotate.mpr hnd).sublist (List.take_sublist _ _)
  · intro a ha
    exact List.mem_rotate.mp (List.mem_of_mem_take ha)

/-- A concrete engine state with 100 peers, for the gossip-cap witness. -/
def hundredPeerState : CloudState :=
  { emptyCloudState with
    peers :=
      { timeout := 100,
        peers := (List.range 100).map
          (fun i => (i, { timeout := 0, node_id := i, alt_addrs := [] })),
        nodes := [],
        addresses := [] } }

theorem hundredPeerState_keys :
    hundredPeerState.peers.peers.map (fun p => p.1) = List.range 100 := by
  simp [hundredPeerState, emptyCloudState, List.map_map, Function.comp_def]

theorem hundredPeerState_nodup :
    (hundredPeerState.peers.peers.map (fun p => p.1)).Nodup := by
  rw [hundredPeerState_keys]
  exact List.nodup_range 100

set_option maxRecDepth 2000 in
theorem gossip_cap_witness :
    (hundredPeerState.next_peerlist ≤ 0 ∧
      (hundredPeerState.peers.peers.map (fun p => p.1)).Nodup ∧
      hundredPeerState.peers.len = 100 ∧ min (100 : Nat) 20 = 20) ∧
    (∃ ps, housekeep_gossip 7 0 hundredPeerState =
        { hundredPeerState with
          sent := hundredPeerState.sent ++
            hundredPeerState.peers.peers.map (fun p => (p.1, Message.Peers ps)),
          next_peerlist := 0 + hundredPeerState.update_freq } ∧
      ps.length = min hundredPeerState.peers.len 20 ∧ ps.Nodup ∧
      ∀ a ∈ ps, a ∈ hundredPeerState.peers.peers.map (fun p => p.1)) :=
  ⟨⟨by decide, hundredPeerState_nodup, by decide, by norm_num⟩,
    gossip_cap 7 0 hundredPeerState (by decide) hundredPeerState_nodup⟩

/-!
SharedPeerCrypto (src/engine/shared.rs lines 21-63), claim C10. The struct
is Clone: every clone shares the Arc-guarded `peers` map but owns its local
`cache`. Both maps are embedded as association lists from socket address to
Option CryptoCore; the opaque CryptoCore handle is a Nat, and the effect of
CryptoCore::encrypt on a buffer is an arbitrary function argument E. The
operations take the cache (and the shared map) they act on explicitly and
return the updated maps.
-/

inductive CryptoError where
  | InvalidCryptoState
  deriving DecidableEq, Repr

/-- SharedPeerCrypto::encrypt_for (src/engine/shared.rs lines 32-49): use
the local cache first; on a miss consult the shared map and cache the
result; error when the peer is in neither; a `none` crypto handle leaves
the buffer as is. Returns the buffer and the updated cache. -/
def encrypt_for (E : Nat → List Nat → List Nat)
    (cache shared : List (Nat × Option Nat)) (peer : Nat) (data : List Nat) :
    Except CryptoError (List Nat × List (Nat × Option Nat)) :=
  match alookup cache peer with
  | some crypto =>
    .ok (match crypto with | some core => E core data | none => data, cache)
  | none =>
    match alookup shared peer with
    | some crypto =>
      .ok (match crypto with | some core => E core data | none => data,
        ainsert cache peer crypto)
    | none => .error .InvalidCryptoState

/-- SharedPeerCrypto::store (src/engine/shared.rs lines 51-57): the calling
clone's cache and the shared map are both replaced by the projection of the
peer-data map (crypto.get_core() per peer), which `data` already is here.
Returns (new cache of that clone, new shared map). -/
def store (data : List (Nat × Option Nat))
    (_cache _shared : List (Nat × Option Nat)) :
    List (Nat × Option Nat) × List (Nat × Option Nat) :=
  (data, data)

/-- Claim C10: encrypt_for returns Err(InvalidCryptoState) iff the peer is
present in neither the local cache nor the shared map; a peer mapped to
None yields Ok with the buffer unchanged; and because the cache is
consulted before the shared map, an entry cached earlier by one clone is
still used even after another clone's store removed that peer from the
shared map. -/
theorem encrypt_for_spec (E : Nat → List Nat → List Nat)
    (cache shared : List (Nat × Option Nat)) (peer : Nat) (data : List Nat) :
    ((∃ e, encrypt_for E cache shared peer data = .error e) ↔
      (alookup cache peer = none ∧ alookup shared peer = none)) ∧
    ((alookup cache peer = some none ∨
        (alookup cache peer = none ∧ alookup shared peer = some none)) →
      ∃ c', encrypt_for E cache shared peer data = .ok (data, c')) ∧
    (∀ (core : Nat) (dataMap c2 s2 : List (Nat × Option Nat)),
      alookup cache peer = some (some core) →
      alookup dataMap peer = none →
      encrypt_for E cache ((store dataMap c2 s2).2) peer data =
        .ok (E core data, cache)) := by
  refine ⟨?_, ?_, ?_⟩
  · constructor
    · rintro ⟨e, he⟩
      unfold encrypt_for at he
      cases hc : alookup cache peer with
      | some crypto => rw [hc] at he; cases he
      | none =>
        rw [hc] at he
        cases hs : alookup shared peer with
        | some crypto => rw [hs] at he; cases he
        | none => exact ⟨rfl, rfl⟩
    · rintro ⟨hc, hs⟩
      refine ⟨.InvalidCryptoState, ?_⟩
      unfold encrypt_for
      rw [hc, hs]
  · rintro (hc | ⟨hc, hs⟩)
    · refine ⟨cache, ?_⟩
      unfold encrypt_for
      rw [hc]
    · refine ⟨ainsert cache peer none, ?_⟩
      unfold encrypt_for
      rw [hc, hs]
  · intro core dataMap c2 s2 hc _hrm
    unfold encrypt_for
    rw [hc]

theorem encrypt_for_spec_witness :
    (alookup [(1, some 5)] 1 = some (some 5) ∧
      alookup ([] : List (Nat × Option Nat)) 1 = none) ∧
    encrypt_for (fun c b => c :: b) [(1, some 5)] ((store [] [] []).2) 1 [9] =
      .ok ([5, 9], [(1, some 5)]) :=
  ⟨⟨by decide, by decide⟩,
    (encrypt_for_spec (fun c b => c :: b) [(1, some 5)] [] 1 [9]).2.2 5 [] [] []
      (by decide) (by decide)⟩
